import Mathlib

/-!
# Verification of the wplace backend core pipeline

Shallow embedding of the origin server's ingestion-and-distribution pipeline:

* `PixelUpdate`, `PixelQueue` (`backend/queue.go`),
* `RateLimiter` (`Allow` and the periodic `cleanup` sweep),
* the HTTP ingestion entrypoint `handlePixelUpdate` / `validatePixel`
  (`backend/server.go`),
* the `Hub` broadcast loop: membership (`register`/`unregister` cases of
  `Hub.Run`), per-batch fan-out with slow-consumer eviction (`broadcast`
  case of `Hub.Run`), and the `processQueue` batching loop.

Go machine integers (`int`, `int64`) are modelled as `Int`; time instants and
durations (`time.Time`, `time.Duration`) as `Int` nanoseconds, matching
`time.Duration`'s unit.  Concurrency is modelled by explicit sequential
traces of events; blocking points (`DequeueBatch` on an empty queue) are
modelled as guards on the event relation.
-/

set_option autoImplicit false

namespace Wplace

/-- Go struct `PixelUpdate` (`backend/server.go` lines 18-24): a single pixel change.
`X`, `Y` are Go `int`s, `Timestamp` is a Go `int64` (Unix millis). -/
structure PixelUpdate where
  x : Int
  y : Int
  color : String
  userID : String
  timestamp : Int
  deriving DecidableEq, Repr

/-- Go struct `PixelQueue` (`backend/queue.go` lines 10-15): a FIFO queue of pixel
updates with a maximum size.  The mutex and condition variable guard the
sequential semantics embedded below. -/
structure PixelQueue where
  items : List PixelUpdate
  maxSize : Int
  deriving DecidableEq, Repr

/-- Constructor `NewPixelQueue` (`backend/queue.go` lines 18-27): fresh empty queue. -/
def NewPixelQueue (maxSize : Int) : PixelQueue :=
  { items := [], maxSize := maxSize }

/-- Method `PixelQueue.Enqueue` (`backend/queue.go` lines 31-50): append to the tail
unless `len(q.items) >= q.maxSize`, in which case return the error
`"queue is full"` and leave the queue unchanged. -/
def PixelQueue.Enqueue (q : PixelQueue) (pixel : PixelUpdate) :
    Except String PixelQueue :=
  if (q.items.length : Int) ≥ q.maxSize then
    .error "queue is full"
  else
    .ok { q with items := q.items ++ [pixel] }

/-- Method `PixelQueue.DequeueBatch` (`backend/queue.go` lines 54-82), the part after
the `notEmpty` wait loop (the code blocks while the queue is empty; callers
of this embedding reach it only with a non-empty queue).  `count` is
`batchSize` clamped from above by the current length; `make([]PixelUpdate,
count)` panics when `count` is negative, modelled as `none`. -/
def PixelQueue.DequeueBatch (q : PixelQueue) (batchSize : Int) :
    Option (List PixelUpdate × PixelQueue) :=
  let count : Int := if batchSize > (q.items.length : Int)
    then (q.items.length : Int) else batchSize
  if count < 0 then
    none
  else
    some (q.items.take count.toNat, { q with items := q.items.drop count.toNat })

/-- Method `PixelQueue.Len` (`backend/queue.go` lines 85-89). -/
def PixelQueue.Len (q : PixelQueue) : Int :=
  (q.items.length : Int)

/-- Method `PixelQueue.IsEmpty` (`backend/queue.go` lines 92-96). -/
def PixelQueue.IsEmpty (q : PixelQueue) : Bool :=
  q.items.length == 0

/-! ## Sequential traces of queue operations

A trace interleaves producer `Enqueue` calls with consumer `DequeueBatch`
calls.  A `deq` event with an empty queue suspends its caller on the
condition variable, so it has no effect at that point of the trace. -/

/-- One queue operation of a sequential trace. -/
inductive QOp where
  | enq (u : PixelUpdate)
  | deq (n : Nat)
  deriving DecidableEq, Repr

/-- Observable history of a queue trace: the queue itself, the updates
accepted by `Enqueue` in order, and the batches returned by `DequeueBatch`
in order. -/
structure QTrace where
  queue : PixelQueue
  accepted : List PixelUpdate
  batches : List (List PixelUpdate)
  deriving DecidableEq, Repr

/-- Initial trace state over an empty queue of capacity `cap`. -/
def initQTrace (cap : Int) : QTrace :=
  { queue := NewPixelQueue cap, accepted := [], batches := [] }

/-- One step of the sequential queue trace.  An `enq` that returns the
`Full` error leaves everything unchanged; a `deq` on an empty queue
suspends (no effect at this point of the trace). -/
def qStep (s : QTrace) (op : QOp) : QTrace :=
  match op with
  | .enq u =>
    match s.queue.Enqueue u with
    | .ok q₂ => { s with queue := q₂, accepted := s.accepted ++ [u] }
    | .error _ => s
  | .deq n =>
    if s.queue.items.isEmpty then s
    else
      match s.queue.DequeueBatch (n : Int) with
      | some (batch, q₂) =>
        { s with queue := q₂, batches := s.batches ++ [batch] }
      | none => s

/-- Run a whole trace from the empty queue of capacity `cap`. -/
def runQueue (cap : Int) (ops : List QOp) : QTrace :=
  ops.foldl qStep (initQTrace cap)

/-- A sample valid update, used for concrete witnesses. -/
def sampleUpdate : PixelUpdate :=
  { x := 0, y := 0, color := "#FF0000", userID := "alice", timestamp := 0 }

/-- A sample non-empty queue, used for concrete witnesses. -/
def sampleQueue : PixelQueue :=
  { items := [sampleUpdate], maxSize := 10 }

/-! ## Queue lemmas -/

/-- Calling `DequeueBatch` with a non-negative requested count returns exactly the
first `min n (length)` items and drops them from the queue. -/
theorem DequeueBatch_take (q : PixelQueue) (n : Nat) :
    q.DequeueBatch (n : Int) =
      some (q.items.take (min n q.items.length),
            { q with items := q.items.drop (min n q.items.length) }) := by
  unfold PixelQueue.DequeueBatch
  by_cases hgt : (n : Int) > (q.items.length : Int)
  · have hlen : q.items.length ≤ n := by exact_mod_cast le_of_lt hgt
    have hmin : min n q.items.length = q.items.length := by omega
    have hnn : ¬ ((q.items.length : Int) < 0) := by omega
    simp [hgt, hnn, hmin]
  · have hle : n ≤ q.items.length := by
      have := not_lt.mp hgt
      exact_mod_cast this
    have hmin : min n q.items.length = n := by omega
    have hnn : ¬ ((n : Int) < 0) := by omega
    simp [hgt, hnn, hmin]

/-- The concatenation invariant `batches.join ++ items = accepted` is
preserved by every queue operation. -/
theorem qStep_join_inv (s : QTrace) (op : QOp)
    (h : s.batches.flatten ++ s.queue.items = s.accepted) :
    (qStep s op).batches.flatten ++ (qStep s op).queue.items
      = (qStep s op).accepted := by
  cases op with
  | enq u =>
    by_cases hc : (s.queue.items.length : Int) ≥ s.queue.maxSize
    · simp [qStep, PixelQueue.Enqueue, hc, h]
    · simp only [qStep, PixelQueue.Enqueue, if_neg hc]
      rw [← List.append_assoc, h]
  | deq n =>
    by_cases he : s.queue.items.isEmpty
    · simp [qStep, he, h]
    · simp only [qStep, he, Bool.false_eq_true, if_false, DequeueBatch_take]
      simp only [List.flatten_append, List.flatten_cons, List.flatten_nil,
        List.append_nil, List.append_assoc, List.take_append_drop, h]

/-- The `maxSize` field and the bound `length ≤ cap` are preserved by every
queue operation. -/
theorem qStep_len_inv (cap : Int) (s : QTrace) (op : QOp)
    (hm : s.queue.maxSize = cap) (h : (s.queue.items.length : Int) ≤ cap) :
    (qStep s op).queue.maxSize = cap ∧
      ((qStep s op).queue.items.length : Int) ≤ cap := by
  cases op with
  | enq u =>
    by_cases hc : (s.queue.items.length : Int) ≥ s.queue.maxSize
    · simp only [qStep, PixelQueue.Enqueue, if_pos hc]
      exact ⟨hm, h⟩
    · simp only [qStep, PixelQueue.Enqueue, if_neg hc]
      refine ⟨hm, ?_⟩
      rw [hm] at hc
      simp only [List.length_append, List.length_singleton]
      omega
  | deq n =>
    by_cases he : s.queue.items.isEmpty
    · simp [qStep, he, hm, h]
    · simp only [qStep, he, Bool.false_eq_true, if_false, DequeueBatch_take]
      refine ⟨hm, ?_⟩
      simp only [List.length_drop]
      omega

/-- Folding queue operations preserves the join invariant. -/
theorem runQueue_join_aux (ops : List QOp) :
    ∀ s : QTrace, s.batches.flatten ++ s.queue.items = s.accepted →
      (ops.foldl qStep s).batches.flatten ++ (ops.foldl qStep s).queue.items
        = (ops.foldl qStep s).accepted := by
  induction ops with
  | nil => intro s h; exact h
  | cons op rest ih => intro s h; exact ih _ (qStep_join_inv s op h)

/-- Folding queue operations preserves the length bound. -/
theorem runQueue_len_aux (cap : Int) (ops : List QOp) :
    ∀ s : QTrace, s.queue.maxSize = cap → (s.queue.items.length : Int) ≤ cap →
      ((ops.foldl qStep s).queue.items.length : Int) ≤ cap := by
  induction ops with
  | nil => intro s _ h; exact h
  | cons op rest ih =>
    intro s hm h
    obtain ⟨hm₂, h₂⟩ := qStep_len_inv cap s op hm h
    exact ih _ hm₂ h₂

/-! ## Claim theorems for the queue -/

/-- C3: FIFO order of `PixelQueue`.  `DequeueBatch` removes and returns up to
`maxCount` items from the head preserving order, and for every sequential
trace of `Enqueue`/`DequeueBatch` calls the concatenation of all returned
batches, followed by the items still queued, is exactly the sequence of
accepted enqueues in order; hence an update enqueued earlier appears in an
earlier-or-equal batch, and earlier within the same batch, than one enqueued
later. -/
theorem DequeueBatch_fifo (cap : Int) (ops : List QOp) (q : PixelQueue) (n : Nat) :
    q.DequeueBatch (n : Int) =
      some (q.items.take (min n q.items.length),
            { q with items := q.items.drop (min n q.items.length) }) ∧
    (runQueue cap ops).batches.flatten ++ (runQueue cap ops).queue.items
      = (runQueue cap ops).accepted := by
  refine ⟨DequeueBatch_take q n, ?_⟩
  exact runQueue_join_aux ops (initQTrace cap) (by simp [initQTrace, NewPixelQueue])

/-- C4: `Enqueue` appends to the tail exactly when the current length is
strictly below capacity and otherwise returns the `Full` error leaving the
queue untouched; consequently, starting from the empty queue, the length
never exceeds the (non-negative) capacity after any sequence of operations. -/
theorem Enqueue_capacity (cap : Int) (ops : List QOp) (q : PixelQueue)
    (u : PixelUpdate) (hcap : 0 ≤ cap) :
    q.Enqueue u = (if (q.items.length : Int) < q.maxSize
        then Except.ok { q with items := q.items ++ [u] }
        else Except.error "queue is full") ∧
    ((runQueue cap ops).queue.items.length : Int) ≤ cap := by
  constructor
  · by_cases hc : (q.items.length : Int) ≥ q.maxSize
    · simp [PixelQueue.Enqueue, hc, not_lt.mpr hc]
    · simp [PixelQueue.Enqueue, hc, not_le.mp hc]
  · exact runQueue_len_aux cap ops (initQTrace cap) rfl
      (by simp [initQTrace, NewPixelQueue]; exact hcap)

/-- Witness for C4 at capacity 2 with three enqueues. -/
theorem Enqueue_capacity_witness :
    (0 : Int) ≤ 2 ∧
    ((NewPixelQueue 2).Enqueue sampleUpdate =
        (if ((NewPixelQueue 2).items.length : Int) < (NewPixelQueue 2).maxSize
          then Except.ok { NewPixelQueue 2 with
            items := (NewPixelQueue 2).items ++ [sampleUpdate] }
          else Except.error "queue is full") ∧
      ((runQueue 2 [QOp.enq sampleUpdate, QOp.enq sampleUpdate,
          QOp.enq sampleUpdate]).queue.items.length : Int) ≤ 2) :=
  ⟨by decide,
   Enqueue_capacity 2 [QOp.enq sampleUpdate, QOp.enq sampleUpdate,
      QOp.enq sampleUpdate] (NewPixelQueue 2) sampleUpdate (by decide)⟩

/-- C10: on a non-empty queue, `DequeueBatch 0` returns the empty batch and
leaves the queue unchanged, while a negative `maxCount` reaches the negative
slice allocation (`make([]PixelUpdate, count)` with `count < 0`), a runtime
panic, modelled as `none`; the call is total exactly for `maxCount ≥ 0`. -/
theorem DequeueBatch_nonneg_safe (q : PixelQueue) (n : Int) (h : q.items ≠ []) :
    q.DequeueBatch 0 = some ([], q) ∧
    q.DequeueBatch n = (if n < 0 then none
      else some (q.items.take n.toNat, { q with items := q.items.drop n.toNat })) := by
  constructor
  · have h0 : ¬ ((0 : Int) > (q.items.length : Int)) := by omega
    simp [PixelQueue.DequeueBatch, h0]
  · by_cases hn : n < 0
    · have hng : ¬ (n > (q.items.length : Int)) := by omega
      simp [PixelQueue.DequeueBatch, hng, hn]
    · have hn0 : 0 ≤ n := not_lt.mp hn
      obtain ⟨m, rfl⟩ := Int.eq_ofNat_of_zero_le hn0
      rw [DequeueBatch_take]
      simp only [if_neg hn, Int.toNat_natCast]
      by_cases hle : m ≤ q.items.length
      · rw [min_eq_left hle]
      · have hge : q.items.length ≤ m := le_of_not_le hle
        rw [min_eq_right hge, List.take_length, List.drop_length,
          List.take_of_length_le hge, List.drop_eq_nil_iff.mpr hge]

/-- Witness for C10 on a one-element queue with `maxCount = -1`. -/
theorem DequeueBatch_nonneg_safe_witness :
    sampleQueue.items ≠ [] ∧
    (sampleQueue.DequeueBatch 0 = some ([], sampleQueue) ∧
     sampleQueue.DequeueBatch (-1) = (if (-1 : Int) < 0 then none
       else some (sampleQueue.items.take (-1 : Int).toNat,
         { sampleQueue with items := sampleQueue.items.drop (-1 : Int).toNat }))) :=
  ⟨by decide, DequeueBatch_nonneg_safe sampleQueue (-1) (by decide)⟩

/-! ## RateLimiter

`RateLimiter` keeps a `map[string]time.Time` from identity to the time of
the last accepted update.  The Go map is modelled as an association list
with unique keys (`keysNodup`); times and durations are `Int` nanoseconds,
as in `time.Duration`. -/

/-- Lookup in the identity map (`rl.lastUpdate[userID]`). -/
def mapLookup : List (String × Int) → String → Option Int
  | [], _ => none
  | (k, v) :: rest, u => if k = u then some v else mapLookup rest u

/-- Map assignment `rl.lastUpdate[userID] = now`. -/
def mapInsert : List (String × Int) → String → Int → List (String × Int)
  | [], u, x => [(u, x)]
  | (k, v) :: rest, u, x =>
    if k = u then (u, x) :: rest else (k, v) :: mapInsert rest u x

/-- The Go map invariant: every key occurs at most once. -/
def keysNodup : List (String × Int) → Bool
  | [] => true
  | (k, _) :: rest => !(rest.any fun p => p.1 == k) && keysNodup rest

/-- Go struct `RateLimiter` (`RateLimiter` struct of the rate-limiter source file,
lines 10-14). -/
structure RateLimiter where
  lastUpdate : List (String × Int)
  cooldown : Int
  deriving DecidableEq, Repr

/-- Constructor `NewRateLimiter` (rate-limiter source lines 17-28): empty map; the
`cleanup` goroutine it spawns is modelled by explicit `cleanup` events. -/
def NewRateLimiter (cooldown : Int) : RateLimiter :=
  { lastUpdate := [], cooldown := cooldown }

/-- Method `RateLimiter.Allow` (rate-limiter source lines 32-61): first call for
an unseen identity records `now` and returns true; otherwise return false
when `now - lastTime < cooldown` without touching the map, else record
`now` and return true. -/
def RateLimiter.Allow (rl : RateLimiter) (userID : String) (now : Int) :
    Bool × RateLimiter :=
  match mapLookup rl.lastUpdate userID with
  | none =>
    (true, { rl with lastUpdate := mapInsert rl.lastUpdate userID now })
  | some lastTime =>
    if now - lastTime < rl.cooldown then
      (false, rl)
    else
      (true, { rl with lastUpdate := mapInsert rl.lastUpdate userID now })

/-- One nanosecond-denominated minute (`time.Minute`). -/
def nanosPerMinute : Int := 60 * 1000000000

/-- The body of one sweep pass of `RateLimiter.cleanup` (rate-limiter
source lines 70-82): delete every entry with `now.Sub(lastTime) >
10*time.Minute`, keep the rest. -/
def cleanupPass : List (String × Int) → Int → List (String × Int)
  | [], _ => []
  | (userID, lastTime) :: rest, now =>
    if now - lastTime > 10 * nanosPerMinute then cleanupPass rest now
    else (userID, lastTime) :: cleanupPass rest now

/-- One firing of the `cleanup` sweep on the limiter state. -/
def RateLimiter.cleanup (rl : RateLimiter) (now : Int) : RateLimiter :=
  { rl with lastUpdate := cleanupPass rl.lastUpdate now }

/-- Specification model of `Allow`, following spec section 4.1 word for
word: the first call for an unseen identity returns true and records now
as last-accepted; a subsequent call returns true and updates the
timestamp exactly when the elapsed time since last-accepted is at least
the cooldown, and otherwise returns false leaving the timestamp
unchanged. -/
def AllowSpec (rl : RateLimiter) (userID : String) (now : Int) :
    Bool × RateLimiter :=
  match mapLookup rl.lastUpdate userID with
  | none =>
    (true, { rl with lastUpdate := mapInsert rl.lastUpdate userID now })
  | some lastAccepted =>
    if rl.cooldown ≤ now - lastAccepted then
      (true, { rl with lastUpdate := mapInsert rl.lastUpdate userID now })
    else
      (false, rl)

/-- An entry the sweep keeps: not older than the 10-minute retention. -/
def keptEntry (now : Int) (p : String × Int) : Bool :=
  decide (now - p.2 ≤ 10 * nanosPerMinute)

/-! ### Map lemmas -/

/-- Inserting a key makes it look up to the inserted value. -/
theorem mapLookup_mapInsert_self (m : List (String × Int)) (u : String) (x : Int) :
    mapLookup (mapInsert m u x) u = some x := by
  induction m with
  | nil => simp [mapInsert, mapLookup]
  | cons p rest ih =>
    obtain ⟨k, v⟩ := p
    by_cases hk : k = u
    · simp [mapInsert, mapLookup, hk]
    · simp [mapInsert, mapLookup, hk, ih]

/-- Inserting one key leaves every other key's lookup unchanged. -/
theorem mapLookup_mapInsert_ne (m : List (String × Int)) (u v : String) (x : Int)
    (h : u ≠ v) : mapLookup (mapInsert m u x) v = mapLookup m v := by
  induction m with
  | nil => simp [mapInsert, mapLookup, h]
  | cons p rest ih =>
    obtain ⟨k, w⟩ := p
    by_cases hk : k = u
    · subst hk
      simp [mapInsert, mapLookup, h]
    · simp only [mapInsert, if_neg hk, mapLookup]
      by_cases hv : k = v
      · simp [hv]
      · simp [hv, ih]

/-- A key that occurs nowhere in the list looks up to `none`. -/
theorem mapLookup_eq_none (m : List (String × Int)) (u : String)
    (h : m.any (fun p => p.1 == u) = false) : mapLookup m u = none := by
  induction m with
  | nil => rfl
  | cons p rest ih =>
    obtain ⟨k, x⟩ := p
    simp only [List.any_cons] at h
    have hk : (k == u) = false := by
      cases hc : (k == u) with
      | false => rfl
      | true => rw [hc] at h; simp at h
    have hrest : rest.any (fun p => p.1 == u) = false := by
      cases hc : rest.any (fun p => p.1 == u) with
      | false => rfl
      | true => rw [hc] at h; simp at h
    simp [mapLookup, ne_of_beq_false hk, ih hrest]

/-- The sweep never makes an absent key present. -/
theorem mapLookup_cleanupPass_none (now : Int) (m : List (String × Int)) (u : String)
    (h : mapLookup m u = none) : mapLookup (cleanupPass m now) u = none := by
  induction m with
  | nil => rfl
  | cons p rest ih =>
    obtain ⟨k, x⟩ := p
    by_cases hk : k = u
    · simp [mapLookup, hk] at h
    · simp only [mapLookup, if_neg hk] at h
      by_cases hc : now - x > 10 * nanosPerMinute
      · simp only [cleanupPass, if_pos hc]
        exact ih h
      · simp only [cleanupPass, if_neg hc, mapLookup, if_neg hk]
        exact ih h

/-- The sweep purges a key whose (unique) entry is older than the
retention threshold. -/
theorem mapLookup_cleanupPass_purged (now t : Int) (m : List (String × Int))
    (u : String) (hkeys : keysNodup m = true) (ht : mapLookup m u = some t)
    (hold : 10 * nanosPerMinute < now - t) :
    mapLookup (cleanupPass m now) u = none := by
  induction m with
  | nil => simp [mapLookup] at ht
  | cons p rest ih =>
    obtain ⟨k, x⟩ := p
    have h1 : rest.any (fun p => p.1 == k) = false := by
      cases hany : rest.any (fun p => p.1 == k) with
      | false => rfl
      | true => rw [keysNodup, hany] at hkeys; simp at hkeys
    have h2 : keysNodup rest = true := by
      cases hrest : keysNodup rest with
      | true => rfl
      | false => rw [keysNodup, hrest] at hkeys; simp at hkeys
    by_cases hk : k = u
    · subst hk
      simp only [mapLookup, eq_self_iff_true, if_true, Option.some.injEq] at ht
      subst ht
      simp only [cleanupPass, if_pos hold]
      exact mapLookup_cleanupPass_none now rest k (mapLookup_eq_none rest k h1)
    · simp only [mapLookup, if_neg hk] at ht
      by_cases hc : now - x > 10 * nanosPerMinute
      · simp only [cleanupPass, if_pos hc]
        exact ih h2 ht
      · simp only [cleanupPass, if_neg hc, mapLookup, if_neg hk]
        exact ih h2 ht

/-- An `Allow` call accepts an identity that is absent from the map. -/
theorem Allow_fst_of_none (rl : RateLimiter) (u : String) (now : Int)
    (h : mapLookup rl.lastUpdate u = none) : (rl.Allow u now).1 = true := by
  simp [RateLimiter.Allow, h]

/-- One sweep pass keeps exactly the entries within retention, in order. -/
theorem cleanupPass_eq_filter (m : List (String × Int)) (now : Int) :
    cleanupPass m now = m.filter (keptEntry now) := by
  induction m with
  | nil => rfl
  | cons p rest ih =>
    obtain ⟨k, x⟩ := p
    by_cases hc : now - x > 10 * nanosPerMinute
    · have hkept : keptEntry now (k, x) = false := by
        simp [keptEntry]
        omega
      simp [cleanupPass, if_pos hc, ih, List.filter_cons, hkept]
    · have hkept : keptEntry now (k, x) = true := by
        simp [keptEntry]
        omega
      simp [cleanupPass, if_neg hc, ih, List.filter_cons, hkept]

/-! ### Claim theorems for the rate limiter -/

/-- C5: `Allow` behaves exactly as specified — first call for an unseen
identity accepted and stamped with now; later calls accepted (and
restamped) precisely when the elapsed time reaches the cooldown, rejected
calls leaving the timestamp untouched — and a call for one identity never
changes the recorded state of a different identity. -/
theorem Allow_cooldown (rl : RateLimiter) (u v : String) (now : Int)
    (hne : u ≠ v) :
    rl.Allow u now = AllowSpec rl u now ∧
    mapLookup (rl.Allow u now).2.lastUpdate u =
      (if (rl.Allow u now).1 = true then some now else mapLookup rl.lastUpdate u) ∧
    mapLookup (rl.Allow u now).2.lastUpdate v = mapLookup rl.lastUpdate v := by
  cases hcase : mapLookup rl.lastUpdate u with
  | none =>
    refine ⟨?_, ?_, ?_⟩
    · simp [RateLimiter.Allow, AllowSpec, hcase]
    · simp [RateLimiter.Allow, hcase, mapLookup_mapInsert_self]
    · simp [RateLimiter.Allow, hcase, mapLookup_mapInsert_ne _ u v now hne]
  | some t =>
    by_cases hcd : now - t < rl.cooldown
    · refine ⟨?_, ?_, ?_⟩
      · have : ¬ (rl.cooldown ≤ now - t) := by omega
        simp [RateLimiter.Allow, AllowSpec, hcase, hcd, this]
      · simp [RateLimiter.Allow, hcase, hcd]
      · simp [RateLimiter.Allow, hcase, hcd]
    · refine ⟨?_, ?_, ?_⟩
      · have : rl.cooldown ≤ now - t := by omega
        simp [RateLimiter.Allow, AllowSpec, hcase, hcd, this]
      · simp [RateLimiter.Allow, hcase, hcd, mapLookup_mapInsert_self]
      · simp [RateLimiter.Allow, hcase, hcd, mapLookup_mapInsert_ne _ u v now hne]

/-- A sample limiter state for the C5 witness: `"u1"` accepted at time 0,
cooldown 5s. -/
def sampleLimiter : RateLimiter :=
  { lastUpdate := [("u1", 0)], cooldown := 5000000000 }

/-- Witness for C5: identity `"u1"` re-attempts at 7s, `"u2"` unaffected. -/
theorem Allow_cooldown_witness :
    "u1" ≠ "u2" ∧
    (sampleLimiter.Allow "u1" 7000000000 = AllowSpec sampleLimiter "u1" 7000000000 ∧
     mapLookup (sampleLimiter.Allow "u1" 7000000000).2.lastUpdate "u1" =
       (if (sampleLimiter.Allow "u1" 7000000000).1 = true then some 7000000000
        else mapLookup sampleLimiter.lastUpdate "u1") ∧
     mapLookup (sampleLimiter.Allow "u1" 7000000000).2.lastUpdate "u2" =
       mapLookup sampleLimiter.lastUpdate "u2") :=
  ⟨by decide, Allow_cooldown sampleLimiter "u1" "u2" 7000000000 (by decide)⟩

/-- C6: one sweep at time `now` keeps exactly the entries whose
last-accepted time is within the 10-minute retention (all others removed,
the kept ones unchanged and in order); an identity whose entry was older
than retention is purged, and its next `Allow` call is accepted as
first-seen. -/
theorem cleanup_sweep (rl : RateLimiter) (u : String) (now now₂ t : Int)
    (hkeys : keysNodup rl.lastUpdate = true)
    (ht : mapLookup rl.lastUpdate u = some t)
    (hold : 10 * nanosPerMinute < now - t) :
    (rl.cleanup now).lastUpdate = rl.lastUpdate.filter (keptEntry now) ∧
    mapLookup (rl.cleanup now).lastUpdate u = none ∧
    ((rl.cleanup now).Allow u now₂).1 = true := by
  have hpurge : mapLookup (cleanupPass rl.lastUpdate now) u = none :=
    mapLookup_cleanupPass_purged now t rl.lastUpdate u hkeys ht hold
  exact ⟨cleanupPass_eq_filter rl.lastUpdate now, hpurge,
    Allow_fst_of_none _ u now₂ hpurge⟩

/-- Witness for C6: `"u1"` accepted at time 0, swept at 601 seconds. -/
theorem cleanup_sweep_witness :
    keysNodup sampleLimiter.lastUpdate = true ∧
    mapLookup sampleLimiter.lastUpdate "u1" = some 0 ∧
    10 * nanosPerMinute < (601000000000 : Int) - 0 ∧
    ((sampleLimiter.cleanup 601000000000).lastUpdate =
        sampleLimiter.lastUpdate.filter (keptEntry 601000000000) ∧
     mapLookup (sampleLimiter.cleanup 601000000000).lastUpdate "u1" = none ∧
     ((sampleLimiter.cleanup 601000000000).Allow "u1" 601000000000).1 = true) :=
  ⟨by decide, by decide, by decide,
   cleanup_sweep sampleLimiter "u1" 601000000000 601000000000 0
     (by decide) (by decide) (by decide)⟩

/-! ## Ingestion entrypoint (`backend/server.go`)

`handlePixelUpdate` is modelled as a pure function of the decoded request
and the current time in nanoseconds.  The `OPTIONS` preflight branch at
lines 43-46 is unreachable (only `POST` passes the method gate at line 32)
and is therefore absent from the embedding. -/

/-- Outcome written by `handlePixelUpdate`, one per HTTP response. -/
inductive HttpResult where
  | methodNotAllowed
  | invalidJSON
  | badRequest (msg : String)
  | rateLimited
  | queueFull
  | ok
  deriving DecidableEq, Repr

/-- One character of the `[0-9A-Fa-f]` class. -/
def hexDigit (c : Char) : Bool :=
  (('0' ≤ c) && (c ≤ '9')) || (('A' ≤ c) && (c ≤ 'F')) || (('a' ≤ c) && (c ≤ 'f'))

/-- Matcher `hexColorRegex.MatchString` for the anchored pattern
`^#[0-9A-Fa-f]{6}$` (`backend/server.go` line 27). -/
def hexColorMatch (s : String) : Bool :=
  match s.toList with
  | [] => false
  | c :: rest => c == '#' && rest.length == 6 && rest.all hexDigit

/-- Function `validatePixel` (`backend/server.go` lines 117-139). -/
def validatePixel (pixel : PixelUpdate) : Option String :=
  if pixel.x < 0 ∨ pixel.x > 999 then
    some "x coordinate must be between 0 and 999"
  else if pixel.y < 0 ∨ pixel.y > 999 then
    some "y coordinate must be between 0 and 999"
  else if !(hexColorMatch pixel.color) then
    some "color must be in #RRGGBB format"
  else if pixel.userID = "" then
    some "userId is required"
  else
    none

/-- Function `currentTimeMillis` (`backend/server.go` lines 151-153):
`timeNow().UnixNano() / int64(1000000)`, Go division truncating toward
zero. -/
def currentTimeMillis (nowNanos : Int) : Int :=
  nowNanos.tdiv 1000000

/-- Go struct `Server` (`backend/server.go` lines 11-15), restricted to the state
`handlePixelUpdate` touches. -/
structure Server where
  queue : PixelQueue
  rateLimiter : RateLimiter
  deriving DecidableEq, Repr

/-- Handler `handlePixelUpdate` (`backend/server.go` lines 30-84): method gate,
JSON decode, `validatePixel`, `RateLimiter.Allow`, server timestamp
assignment, then `Enqueue`.  `body = none` models a JSON decode failure. -/
def handlePixelUpdate (s : Server) (method : String) (body : Option PixelUpdate)
    (nowNanos : Int) : HttpResult × Server :=
  if method ≠ "POST" then (.methodNotAllowed, s)
  else
    match body with
    | none => (.invalidJSON, s)
    | some pixel =>
      match validatePixel pixel with
      | some msg => (.badRequest msg, s)
      | none =>
        let res := s.rateLimiter.Allow pixel.userID nowNanos
        if !res.1 then (.rateLimited, { s with rateLimiter := res.2 })
        else
          let stamped := { pixel with timestamp := currentTimeMillis nowNanos }
          match s.queue.Enqueue stamped with
          | .error _ => (.queueFull, { s with rateLimiter := res.2 })
          | .ok q₂ => (.ok, { queue := q₂, rateLimiter := res.2 })

/-- C8: ingestion guards.  `validatePixel` accepts exactly in-range
coordinates, a well-formed color and a non-empty identity; a decode
failure leaves the server state untouched; a validation failure rejects
the request before the rate limiter is consulted (the whole state is
returned unchanged); and whenever the queue grows, it grows by exactly one
update that passed validation, was accepted by `Allow` on the pre-state,
and carries the server-assigned timestamp. -/
theorem handlePixelUpdate_guards (s : Server) (method : String)
    (nowNanos : Int) (p : PixelUpdate) :
    (validatePixel p = none ↔
      (0 ≤ p.x ∧ p.x ≤ 999 ∧ 0 ≤ p.y ∧ p.y ≤ 999 ∧
       hexColorMatch p.color = true ∧ p.userID ≠ "")) ∧
    (handlePixelUpdate s method none nowNanos).2 = s ∧
    (if validatePixel p = none then True
     else handlePixelUpdate s "POST" (some p) nowNanos
        = (HttpResult.badRequest ((validatePixel p).getD ""), s)) ∧
    ((handlePixelUpdate s method (some p) nowNanos).2.queue.items
        = s.queue.items ∨
     (validatePixel p = none ∧
      (s.rateLimiter.Allow p.userID nowNanos).1 = true ∧
      (handlePixelUpdate s method (some p) nowNanos).2.queue.items
        = s.queue.items ++ [{ p with timestamp := currentTimeMillis nowNanos }])) := by
  refine ⟨?_, ?_, ?_, ?_⟩
  · unfold validatePixel
    split_ifs with h1 h2 h3 h4
    · simp only [reduceCtorEq, false_iff]
      rintro ⟨hx1, hx2, _, _, _, _⟩
      omega
    · simp only [reduceCtorEq, false_iff]
      rintro ⟨_, _, hy1, hy2, _, _⟩
      omega
    · simp only [reduceCtorEq, false_iff]
      rintro ⟨_, _, _, _, hc, _⟩
      rw [hc] at h3
      simp at h3
    · simp only [reduceCtorEq, false_iff]
      rintro ⟨_, _, _, _, _, hu⟩
      exact hu h4
    · push_neg at h1 h2
      simp only [Bool.not_eq_true'] at h3
      refine ⟨fun _ => ⟨h1.1, h1.2, h2.1, h2.2, ?_, h4⟩, fun _ => rfl⟩
      cases hc : hexColorMatch p.color with
      | true => rfl
      | false => rw [hc] at h3; simp at h3
  · unfold handlePixelUpdate
    split_ifs <;> rfl
  · by_cases hv : validatePixel p = none
    · simp [hv]
    · cases hveq : validatePixel p with
      | none => exact absurd hveq hv
      | some msg => simp [hveq, handlePixelUpdate]
  · by_cases hm : method ≠ "POST"
    · left
      simp [handlePixelUpdate, hm]
    · cases hveq : validatePixel p with
      | some msg => left; simp [handlePixelUpdate, hm, hveq]
      | none =>
        by_cases ha : (s.rateLimiter.Allow p.userID nowNanos).1
        · by_cases hq : (s.queue.items.length : Int) ≥ s.queue.maxSize
          · left
            simp [handlePixelUpdate, hm, hveq, ha, PixelQueue.Enqueue, hq]
          · right
            refine ⟨rfl, ha, ?_⟩
            simp [handlePixelUpdate, hm, hveq, ha, PixelQueue.Enqueue, hq]
        · left
          simp [handlePixelUpdate, hm, hveq, ha]

/-! ## Broadcast hub (`backend/hub.go`)

Two aspects are embedded separately, matching the two `select` loops:

* membership and fan-out in `Hub.Run` (lines 45-83), over client states;
* the batching loop `processQueue` (lines 87-125), as a transition system
  driven by producer enqueues and ticker fires. -/

/-- A registered consumer (`Client`, `backend/client.go` lines 38-42):
`id` models pointer identity, `send` the contents of the mailbox channel
(`make(chan []PixelUpdate, 256)`, `backend/server.go` line 102), `sendCap`
its capacity. -/
structure Client where
  id : Nat
  send : List (List PixelUpdate)
  sendCap : Nat
  deriving DecidableEq, Repr

/-- The client has room for a non-blocking send into its mailbox. -/
def hasMailboxRoom (c : Client) : Bool :=
  decide (c.send.length < c.sendCap)

/-- The client's mailbox is full (the `default` arm fires). -/
def mailboxFull (c : Client) : Bool :=
  decide (c.sendCap ≤ c.send.length)

/-- Append a batch to a client's mailbox (successful non-blocking send). -/
def pushBatch (batch : List PixelUpdate) (c : Client) : Client :=
  { c with send := c.send ++ [batch] }

/-- The `broadcast` case of `Hub.Run` (`backend/hub.go` lines 66-81): for
every registered client try a non-blocking send of the batch; on a full
mailbox the client's channel is closed and the client deleted from the
set.  Returns the clients still registered and the evicted clients (whose
mailboxes were closed). -/
def deliverBatch (clients : List Client) (batch : List PixelUpdate) :
    List Client × List Client :=
  match clients with
  | [] => ([], [])
  | c :: rest =>
    let next := deliverBatch rest batch
    if c.send.length < c.sendCap then
      (pushBatch batch c :: next.1, next.2)
    else
      (next.1, c :: next.2)

/-- C7: one delivery step appends the batch to the mailbox of exactly the
registered clients with room — all of which remain registered, in order,
so they receive every subsequent batch — and evicts (closing their
mailboxes) exactly the clients whose mailboxes are full, within the same
step; a saturated consumer never prevents the others from receiving the
batch. -/
theorem deliverBatch_isolation (clients : List Client) (batch : List PixelUpdate) :
    (deliverBatch clients batch).1
      = (clients.filter hasMailboxRoom).map (pushBatch batch) ∧
    (deliverBatch clients batch).2 = clients.filter mailboxFull := by
  induction clients with
  | nil => exact ⟨rfl, rfl⟩
  | cons c rest ih =>
    by_cases hc : c.send.length < c.sendCap
    · have hroom : hasMailboxRoom c = true := by
        simp [hasMailboxRoom, hc]
      have hfull : mailboxFull c = false := by
        simp [mailboxFull]
        omega
      refine ⟨?_, ?_⟩
      · simp [deliverBatch, if_pos hc, List.filter_cons, hroom, ih.1]
      · simp [deliverBatch, if_pos hc, List.filter_cons, hfull, ih.2]
    · have hroom : hasMailboxRoom c = false := by
        simp [hasMailboxRoom]
        omega
      have hfull : mailboxFull c = true := by
        simp [mailboxFull]
        omega
      refine ⟨?_, ?_⟩
      · simp [deliverBatch, if_neg hc, List.filter_cons, hroom, ih.1]
      · simp [deliverBatch, if_neg hc, List.filter_cons, hfull, ih.2]

/-- Hub membership state for the `register`/`unregister` cases of
`Hub.Run` (`backend/hub.go` lines 53-64): the registered set (clients
keyed by identity, modelling `map[*Client]bool`) and the ordered log of
`close(client.send)` calls. -/
structure HubMembers where
  clients : List Nat
  closes : List Nat
  deriving DecidableEq, Repr

/-- The `register` case (lines 53-56): map assignment
`h.clients[client] = true` — a no-op on an already present key. -/
def registerClient (s : HubMembers) (c : Nat) : HubMembers :=
  if s.clients.contains c then s else { s with clients := s.clients ++ [c] }

/-- The `unregister` case (lines 58-64): if the client is present, delete
it from the map and close its mailbox; otherwise do nothing. -/
def unregisterClient (s : HubMembers) (c : Nat) : HubMembers :=
  if s.clients.contains c then
    { clients := s.clients.filter (· ≠ c), closes := s.closes ++ [c] }
  else s

/-- C9: membership operations are idempotent — a second registration of
the same client changes nothing and the client's multiplicity in the set
is one (each batch delivered to it exactly once), and a second
unregistration is a no-op that in particular never closes the mailbox a
second time. -/
theorem membership_idempotent (s : HubMembers) (c : Nat) :
    registerClient (registerClient s c) c = registerClient s c ∧
    (registerClient s c).clients.count c = max (s.clients.count c) 1 ∧
    unregisterClient (unregisterClient s c) c = unregisterClient s c ∧
    (unregisterClient (unregisterClient s c) c).closes
      = (unregisterClient s c).closes := by
  by_cases hm : c ∈ s.clients
  · have hreg : registerClient s c = s := by
      simp [registerClient, hm]
    have h1 : unregisterClient s c
        = { clients := s.clients.filter (· ≠ c), closes := s.closes ++ [c] } := by
      simp [unregisterClient, hm]
    have hunreg : unregisterClient (unregisterClient s c) c = unregisterClient s c := by
      rw [h1]
      simp [unregisterClient]
    have hpos : 1 ≤ List.count c s.clients := List.one_le_count_iff.mpr hm
    refine ⟨by rw [hreg, hreg], ?_, hunreg, by rw [hunreg]⟩
    rw [hreg]
    exact (Nat.max_eq_left hpos).symm
  · have hreg : registerClient s c = { s with clients := s.clients ++ [c] } := by
      simp [registerClient, hm]
    have hreg2 : registerClient { s with clients := s.clients ++ [c] } c
        = { s with clients := s.clients ++ [c] } := by
      simp [registerClient]
    have hzero : List.count c s.clients = 0 := List.count_eq_zero.mpr hm
    have hunreg : unregisterClient (unregisterClient s c) c = unregisterClient s c := by
      simp [unregisterClient, hm]
    refine ⟨by rw [hreg, hreg2], ?_, hunreg, by rw [hunreg]⟩
    rw [hreg]
    simp [List.count_append, hzero]

/-! ## The `processQueue` batching loop (`backend/hub.go` lines 87-125)

The loop owns a local accumulation `buffer` and a 100ms ticker.  On every
tick it (a) broadcasts and resets the buffer when `len(buffer) > 0`, and
(b) spawns a goroutine that, when the queue is non-empty, calls
`DequeueBatch(50)` and sends the batch straight to `h.broadcast`.  Nothing
in the loop ever appends to `buffer`.  The spawned goroutine is modelled
as running to completion at the tick (a fair sequentialisation of the
admittedly unsynchronised code, see the comment at lines 116-117). -/

/-- State observed by the `processQueue` loop: the shared queue, the local
accumulation buffer, and the ordered log of batches sent on
`h.broadcast`. -/
structure HubProcState where
  queue : PixelQueue
  buffer : List PixelUpdate
  broadcasts : List (List PixelUpdate)
  deriving DecidableEq, Repr

/-- Environment events driving the loop: a producer enqueues an accepted
update, or the 100ms ticker fires. -/
inductive HubEvent where
  | enq (u : PixelUpdate)
  | tick
  deriving DecidableEq, Repr

/-- One ticker firing (`backend/hub.go` lines 97-122): flush the buffer if
non-empty (time-based path), then, if the queue is non-empty, dequeue up
to 50 updates and broadcast them directly (the so-called size-based
path). -/
def hubTick (s : HubProcState) : HubProcState :=
  let s₁ := if s.buffer.length > 0 then
      { s with broadcasts := s.broadcasts ++ [s.buffer], buffer := [] }
    else s
  if s₁.queue.IsEmpty then s₁
  else
    match s₁.queue.DequeueBatch 50 with
    | some (batch, q₂) =>
      if batch.length > 0 then
        { s₁ with queue := q₂, broadcasts := s₁.broadcasts ++ [batch] }
      else { s₁ with queue := q₂ }
    | none => s₁

/-- One event of the batching loop's environment: a producer `Enqueue`
(a full queue drops the update at the producer), or a tick. -/
def hubStep (s : HubProcState) (e : HubEvent) : HubProcState :=
  match e with
  | .enq u =>
    match s.queue.Enqueue u with
    | .ok q₂ => { s with queue := q₂ }
    | .error _ => s
  | .tick => hubTick s

/-- Initial loop state: empty queue at the startup capacity 10,000
(`NewPixelQueue(10000)` in `main.go`, documented in the backend README),
empty buffer, nothing broadcast. -/
def initHub : HubProcState :=
  { queue := NewPixelQueue 10000, buffer := [], broadcasts := [] }

/-- Run the batching loop over a sequence of events. -/
def runHub (evs : List HubEvent) : HubProcState :=
  evs.foldl hubStep initHub

/-- No event ever appends to the accumulation buffer: an empty buffer
stays empty across every step. -/
theorem hubStep_buffer_empty (s : HubProcState) (e : HubEvent)
    (h : s.buffer = []) : (hubStep s e).buffer = [] := by
  cases e with
  | enq u =>
    cases henq : s.queue.Enqueue u with
    | ok q₂ => simp [hubStep, henq, h]
    | error msg => simp [hubStep, henq, h]
  | tick =>
    simp only [hubStep, hubTick, h, List.length_nil, gt_iff_lt, lt_self_iff_false,
      if_false]
    by_cases he : s.queue.IsEmpty
    · simp [he, h]
    · simp only [he, Bool.false_eq_true, if_false]
      cases hd : s.queue.DequeueBatch 50 with
      | none => exact h
      | some p =>
        obtain ⟨batch, q₂⟩ := p
        by_cases hb : batch.length > 0
        · simp [hb, h]
        · simp [hb, h]

/-- Buffer emptiness is invariant along any run of the loop. -/
theorem runHub_buffer_aux (evs : List HubEvent) :
    ∀ s : HubProcState, s.buffer = [] → (evs.foldl hubStep s).buffer = [] := by
  induction evs with
  | nil => intro s h; exact h
  | cons e rest ih => intro s h; exact ih _ (hubStep_buffer_empty s e h)

set_option maxRecDepth 8000 in
/-- C1 (evaluation of the code at the claim's failing input): fifty
enqueues with no ticker fire broadcast nothing, even though all fifty
updates were accepted into the queue — the code has no size-based flush of
the accumulation buffer, so the 50th update does not trigger the one
flush of all 50 that the spec's batching policy requires. -/
theorem processQueue_no_size_flush :
    (runHub (List.replicate 50 (HubEvent.enq sampleUpdate))).broadcasts = [] ∧
    (runHub (List.replicate 50 (HubEvent.enq sampleUpdate))).queue.items
      = List.replicate 50 sampleUpdate := by
  decide

/-- C2 (evaluation of the code): on every event sequence the accumulation
buffer stays empty — no update ever passes through it — while a single
enqueued update is nevertheless broadcast by the next tick, through the
direct, goroutine-spawned path that bypasses the buffer; the code has no
single synchronized accumulation buffer with two flush triggers. -/
theorem processQueue_buffer_bypassed (evs : List HubEvent) (u : PixelUpdate) :
    (runHub evs).buffer = [] ∧
    (runHub [HubEvent.enq u, HubEvent.tick]).broadcasts = [[u]] := by
  constructor
  · exact runHub_buffer_aux evs initHub rfl
  · show (hubStep (hubStep initHub (HubEvent.enq u)) HubEvent.tick).broadcasts = [[u]]
    have h1 : hubStep initHub (HubEvent.enq u)
        = { queue := { items := [u], maxSize := 10000 }, buffer := [],
            broadcasts := [] } := by
      simp [hubStep, initHub, NewPixelQueue, PixelQueue.Enqueue]
    rw [h1]
    simp [hubStep, hubTick, PixelQueue.IsEmpty, PixelQueue.DequeueBatch]

end Wplace
